import Mathlib

/-!
Verification development for the Anytype loader (`anytype_loader/loader.py`).

The Python source is shallowly embedded: decoded JSON bodies become the
inductive type `J`, Python `dict.get` becomes association-list lookup
(Python returns `None` both for an absent key and for a JSON `null`
value, so lookup defaults to `J.null`), raising code returns
`Except String`, and the `while True` pagination / retry loops become
fuel- or budget-indexed structural recursion.  Warnings emitted via
`warnings.warn` are modelled as explicit lists of message strings where
a claim depends on them.
-/

namespace Anytype

/-- Decoded JSON values, as produced by `response.json()`. -/
inductive J where
  | null
  | bool (b : Bool)
  | num (n : Int)
  | str (s : String)
  | arr (elems : List J)
  | obj (fields : List (String × J))

/-- Association-list lookup, the model of Python `dict[...]`/`dict.get`.
First binding wins; the JSON bodies the loader consumes have unique keys. -/
def lookupField {α : Type} : List (String × α) → String → Option α
  | [], _ => none
  | (k, v) :: rest, key => if k = key then some v else lookupField rest key

/-- Python `dict.get(key)` on a JSON object: absent keys and JSON `null`
both come back as Python `None`, i.e. `J.null`. -/
def jget (kvs : List (String × J)) (key : String) : J :=
  (lookupField kvs key).getD J.null

/-- Python truthiness of a decoded JSON value. -/
def J.truthy : J → Bool
  | .null => false
  | .bool b => b
  | .num n => n != 0
  | .str s => !s.isEmpty
  | .arr xs => !xs.isEmpty
  | .obj kvs => !kvs.isEmpty

/-- Python `None` test (`is None`). -/
def J.isNull : J → Bool
  | .null => true
  | _ => false

/-- Python hashability of a decoded JSON value: lists and dicts are
unhashable (set membership raises `TypeError` on them), every other
decoded value is hashable. -/
def J.hashable : J → Bool
  | .arr _ => false
  | .obj _ => false
  | _ => true

mutual

/-- Python `str()` of a decoded JSON value.  Scalars are rendered exactly
as Python renders them; for nested lists/dicts the loader's claims never
depend on the rendering, so elements are joined without `repr` quoting. -/
def pyStr : J → String
  | .null => "None"
  | .bool true => "True"
  | .bool false => "False"
  | .num n => toString n
  | .str s => s
  | .arr xs => "[" ++ String.intercalate ", " (pyStrList xs) ++ "]"
  | .obj kvs => "\x7b" ++ String.intercalate ", " (pyStrFields kvs) ++ "\x7d"

def pyStrList : List J → List String
  | [] => []
  | x :: xs => pyStr x :: pyStrList xs

def pyStrFields : List (String × J) → List String
  | [] => []
  | (k, v) :: kvs => (k ++ ": " ++ pyStr v) :: pyStrFields kvs

end

/-- Python `dict` assignment `d[k] = v`: replace in place if the key is
present (insertion order preserved), append otherwise. -/
def insertKV : List (String × J) → String → J → List (String × J)
  | [], k, v => [(k, v)]
  | (k0, v0) :: rest, k, v =>
    if k0 = k then (k0, v) :: rest else (k0, v0) :: insertKV rest k v

/-- The `allowed_keys` set of `_extract_properties`. -/
def allowedKeys : List String :=
  ["tag", "description", "last_opened_date", "last_modified_date", "created_date"]

/-- The `rename_map` of `_extract_properties`, applied when the key is in it. -/
def renameKey (k : String) : String :=
  if k = "created_date" then "created_at"
  else if k = "last_modified_date" then "updated_at"
  else if k = "last_opened_date" then "last_opened_at"
  else k

/-- The inner loop over `multi_select` entries of a `tag` property:
keep `str(tag["name"])` for every dict entry whose `name` is truthy. -/
def tagNames : List J → List String
  | [] => []
  | J.obj kvs :: rest =>
    if (jget kvs "name").truthy then pyStr (jget kvs "name") :: tagNames rest
    else tagNames rest
  | _ :: rest => tagNames rest

/-- Handling of a property entry whose `key` is a string: the
`continue` paths leave the accumulated dict unchanged, the `tag` path
inserts `tags` when any names were collected, and an allow-listed key
with format `date`/`text` inserts its (renamed) key with
`prop.get(fmt)`. -/
def extractStrKey (kvs : List (String × J)) (key : String)
    (acc : List (String × J)) : List (String × J) :=
  if key ∈ allowedKeys then
    if key = "tag" then
      match lookupField kvs "multi_select" with
      | some (J.arr items) =>
        if (tagNames items).isEmpty then acc
        else insertKV acc "tags" (J.arr ((tagNames items).map J.str))
      | _ => acc
    else
      match lookupField kvs "format" with
      | some (J.str fmt) =>
        if fmt = "date" ∨ fmt = "text" then
          insertKV acc (renameKey key) (jget kvs fmt)
        else acc
      | _ => acc
  else acc

/-- One iteration of the `_extract_properties` loop over a dict entry:
`key = prop.get("key")` followed by the set-membership test
`key not in allowed_keys`, which raises `TypeError` when the key value
is unhashable (a list or dict); a hashable non-string key is never in
the allow-list and is skipped. -/
def extractStep (kvs : List (String × J)) (acc : List (String × J)) :
    Except String (List (String × J)) :=
  match lookupField kvs "key" with
  | some (J.arr _) => .error "TypeError: unhashable type: list"
  | some (J.obj _) => .error "TypeError: unhashable type: dict"
  | some (J.str key) => .ok (extractStrKey kvs key acc)
  | _ => .ok acc

/-- The loop of `_extract_properties` over the property list.
A non-dict entry makes `prop.get("key")` raise (`AttributeError`),
modelled as `Except.error`. -/
def extractLoop : List J → List (String × J) → Except String (List (String × J))
  | [], acc => .ok acc
  | J.obj kvs :: rest, acc =>
    match extractStep kvs acc with
    | .ok acc2 => extractLoop rest acc2
    | .error e => .error e
  | _ :: _rest, _acc => .error "AttributeError: no attribute get"

/-- `AnytypeLoader._extract_properties`: a non-list input returns `{}`. -/
def extractProperties (properties : J) : Except String (List (String × J)) :=
  match properties with
  | .arr props => extractLoop props []
  | _ => .ok []

/-- Result of `_parse_objects_response`: ids, the `has_more` flag, and
whether the unexpected-structure diagnostic was emitted. -/
structure ParsedPage where
  ids : List J
  hasMore : Bool
  warned : Bool

/-- The id-collection loop of `_parse_objects_response`:
`ids.append(obj["id"])`, where indexing a non-dict raises `TypeError`
and a dict without the key raises `KeyError`. -/
def collectIds : List J → Except String (List J)
  | [] => .ok []
  | J.obj kvs :: rest =>
    match lookupField kvs "id" with
    | some v =>
      match collectIds rest with
      | .ok ids => .ok (v :: ids)
      | .error e => .error e
    | none => .error "KeyError: id"
  | _ :: _rest => .error "TypeError: not subscriptable"

/-- `has_more` extraction: `bool(pagination_info.get("has_more"))` when
`pagination` is a dict, `False` otherwise. -/
def pageHasMore (kvs : List (String × J)) : Bool :=
  match lookupField kvs "pagination" with
  | some (J.obj pkvs) => (jget pkvs "has_more").truthy
  | _ => false

/-- `AnytypeLoader._parse_objects_response`. -/
def parseObjectsResponse (data : J) : Except String ParsedPage :=
  match data with
  | J.obj kvs =>
    match lookupField kvs "data" with
    | some (J.arr objects) =>
      match collectIds objects with
      | .ok ids => .ok ⟨ids, pageHasMore kvs, false⟩
      | .error e => .error e
    | _ => .ok ⟨[], false, true⟩
  | _ => .ok ⟨[], false, true⟩

/-- One parsed listing page as consumed by the pagination driver:
the (already stringified) object ids and the `has_more` flag. -/
structure Page where
  ids : List String
  hasMore : Bool
deriving DecidableEq

/-- Observable behaviour of one run of `_iter_object_ids`: the ids
yielded in order, the offsets at which listing requests were issued,
and whether the loop exited via its `break` (as opposed to the
modelling fuel running out mid-loop). -/
structure DriverRun where
  ids : List String
  offsets : List Nat
  stopped : Bool
deriving DecidableEq

/-- `AnytypeLoader._iter_object_ids`: starting at offset 0, request a
page, yield its ids, advance the offset by the number of ids returned,
and loop until `has_more` is false.  The source's `while True` is
indexed by fuel; `stopped = false` means the fuel ran out with the loop
still going.  (The offset-0 empty-page diagnostic of the source is a
pure side effect not modelled here.) -/
def iterObjectIds (server : Nat → Page) : Nat → Nat → DriverRun
  | 0, _offset => ⟨[], [], false⟩
  | fuel + 1, offset =>
    let p := server offset
    if p.hasMore then
      let r := iterObjectIds server fuel (offset + p.ids.length)
      ⟨p.ids ++ r.ids, offset :: r.offsets, r.stopped⟩
    else
      ⟨p.ids, [offset], true⟩

/-- `AnytypeLoader._aiter_object_ids`: the async variant, textually the
same loop as `_iter_object_ids` over the async listing call. -/
def aIterObjectIds (server : Nat → Page) : Nat → Nat → DriverRun
  | 0, _offset => ⟨[], [], false⟩
  | fuel + 1, offset =>
    let p := server offset
    if p.hasMore then
      let r := aIterObjectIds server fuel (offset + p.ids.length)
      ⟨p.ids ++ r.ids, offset :: r.offsets, r.stopped⟩
    else
      ⟨p.ids, [offset], true⟩

/-- Starting offset of the k-th page when pages are served back to back:
the sum of the id counts of the pages before it. -/
def offsetAt (ps : List Page) (k : Nat) : Nat :=
  ((ps.take k).map (fun p => p.ids.length)).sum

/-- Classification of a final HTTP status by `_raise_for_status`. -/
inductive HttpOutcome where
  | success (status : Nat)
  | authError (status : Nat)
  | apiError (status : Nat)
deriving DecidableEq

/-- `AnytypeLoader._raise_for_status`: statuses below 400 pass, 401/403
raise `AnytypeAuthError`, every other status raises `AnytypeAPIError`.
(The human-readable detail extracted from the body only feeds the error
message and is not modelled.) -/
def raiseForStatus (status : Nat) : HttpOutcome :=
  if status < 400 then .success status
  else if status = 401 ∨ status = 403 then .authError status
  else .apiError status

/-- The retry condition of `_request_with_retries`:
`response.status_code in {429, 503}`. -/
def retryable (status : Nat) : Bool :=
  status = 429 || status = 503

/-- The `while True` loop of `AnytypeLoader._request_with_retries` over a
stream of response statuses (`resp i` is the status of the i-th HTTP
exchange of this call).  `budget` is the remaining retry allowance
`max_retries - attempt`, so the source's guard `attempt < max_retries`
is exactly `budget > 0`; `attempt` is carried to compute the sleep
`backoff * (attempt + 1)` performed before each retry (returned as the
list of sleeps, with `backoff` in whole time units). -/
def requestLoop (resp : Nat → Nat) (backoff : Nat) :
    Nat → Nat → Nat → HttpOutcome × List Nat
  | 0, _attempt, call => (raiseForStatus (resp call), [])
  | budget + 1, attempt, call =>
    if retryable (resp call) then
      let r := requestLoop resp backoff budget (attempt + 1) (call + 1)
      (r.1, backoff * (attempt + 1) :: r.2)
    else
      (raiseForStatus (resp call), [])

/-- `AnytypeLoader._request_with_retries` with the configured
`max_retries` budget, starting at attempt 0 and the first exchange. -/
def requestWithRetries (resp : Nat → Nat) (maxRetries backoff : Nat) :
    HttpOutcome × List Nat :=
  requestLoop resp backoff maxRetries 0 0

/-- The nested object of an item detail body:
`data.get("object") if isinstance(data, dict) else None`. -/
def objectField (body : J) : J :=
  match body with
  | .obj kvs => jget kvs "object"
  | _ => .null

/-- One emitted record: the `page_content` string and the metadata dict. -/
structure FetchRecord where
  content : String
  metadata : List (String × J)

/-- `self.space_name_map.get(space_id)` as a JSON value. -/
def spaceNameJ (nameMap : List (String × String)) (spaceId : String) : J :=
  match lookupField nameMap spaceId with
  | some n => .str n
  | none => .null

/-- `obj["type"].get("name")` guarded by `isinstance(obj.get("type"), dict)`;
`None` when the guard fails or the name is absent/null. -/
def typeField (okvs : List (String × J)) : J :=
  match jget okvs "type" with
  | .obj tkvs => jget tkvs "name"
  | _ => .null

/-- The metadata dict literal of `_fetch_object`, in source order. -/
def baseMetadata (nameMap : List (String × String)) (spaceId objectId : String)
    (okvs : List (String × J)) : List (String × J) :=
  [("space_id", .str spaceId),
   ("space_name", spaceNameJ nameMap spaceId),
   ("object_id", .str objectId),
   ("id", .str objectId),
   ("name", if (jget okvs "name").truthy then jget okvs "name" else .str "untitled"),
   ("archived", .bool (jget okvs "archived").truthy),
   ("type", if (typeField okvs).isNull then .str "unknown" else typeField okvs)]

/-- `if flattened_properties: metadata.update(flattened_properties)`:
fold the extracted properties into the metadata dict in order. -/
def mergeProps (base : List (String × J)) (props : List (String × J)) :
    List (String × J) :=
  if props.isEmpty then base
  else props.foldl (fun m kv => insertKV m kv.1 kv.2) base

/-- The sentinel-substitution diagnostics of `_fetch_object`, in source
order (missing type, then missing name). -/
def fetchWarnings (objectId : String) (okvs : List (String × J)) : List String :=
  (if (typeField okvs).isNull then
    ["Missing type for object " ++ objectId ++ "; using unknown"] else [])
  ++ (if (jget okvs "name").isNull then
    ["Missing name for object " ++ objectId ++ "; using untitled"] else [])

/-- `AnytypeLoader._fetch_object` applied to a decoded detail body:
`error` models the raised `AnytypeAPIError` for a malformed nested
object (and a propagated failure from `_extract_properties`),
`ok (none, ws)` models the markdown-missing skip, and
`ok (some record, ws)` the emitted record; `ws` are the diagnostics. -/
def fetchObject (nameMap : List (String × String)) (spaceId objectId : String)
    (body : J) : Except String (Option FetchRecord × List String) :=
  match objectField body with
  | J.obj okvs =>
    if (jget okvs "markdown").isNull then
      .ok (none, ["No markdown content for object " ++ objectId ++ "; skipping"])
    else
      match extractProperties (jget okvs "properties") with
      | .ok props =>
        .ok (some ⟨pyStr (jget okvs "markdown"),
                   mergeProps (baseMetadata nameMap spaceId objectId okvs) props⟩,
             fetchWarnings objectId okvs)
      | .error e => .error e
  | _ => .error ("Malformed object response for " ++ objectId)

/-- `AnytypeLoader._afetch_object`: the async variant, performing the
same body handling as `_fetch_object`. -/
def afetchObject (nameMap : List (String × String)) (spaceId objectId : String)
    (body : J) : Except String (Option FetchRecord × List String) :=
  match objectField body with
  | J.obj okvs =>
    if (jget okvs "markdown").isNull then
      .ok (none, ["No markdown content for object " ++ objectId ++ "; skipping"])
    else
      match extractProperties (jget okvs "properties") with
      | .ok props =>
        .ok (some ⟨pyStr (jget okvs "markdown"),
                   mergeProps (baseMetadata nameMap spaceId objectId okvs) props⟩,
             fetchWarnings objectId okvs)
      | .error e => .error e
  | _ => .error ("Malformed object response for " ++ objectId)

/-- Phase of one `fetch_with_limit` task in `alazy_load`: waiting to
enter `async with semaphore`, holding a permit with its HTTP fetch in
flight, or finished (completed or failed — `async with` releases the
permit on both paths). -/
inductive TaskPhase where
  | pending
  | running
  | done
deriving DecidableEq

/-- Number of fetches currently in flight (permits held). -/
def inFlight (tasks : List TaskPhase) : Nat :=
  tasks.count TaskPhase.running

/-- Interleaving semantics of `alazy_load`'s task pool with
`asyncio.Semaphore(M)`: a pending task may acquire the gate only while
fewer than `M` permits are held (only then does it issue its HTTP
call), and a running task releases its permit when its fetch completes
or fails. -/
inductive SemStep (M : Nat) : List TaskPhase → List TaskPhase → Prop
  | acquire (l r : List TaskPhase) :
      inFlight (l ++ TaskPhase.pending :: r) < M →
      SemStep M (l ++ TaskPhase.pending :: r) (l ++ TaskPhase.running :: r)
  | finish (l r : List TaskPhase) :
      SemStep M (l ++ TaskPhase.running :: r) (l ++ TaskPhase.done :: r)

/-- An input fixture shared by `lazy_load` and `alazy_load`: the
resolved space ids in order, the listing pages each space's server
returns per offset, the fuel bounding the pagination loops, the detail
body served for each (space, object) pair, and the resolved
space-name map. -/
structure Fixture where
  spaces : List String
  server : String → Nat → Page
  fuel : Nat
  detail : String → String → J
  nameMap : List (String × String)

/-- Discovery order of `lazy_load`: spaces in resolved order, each
space's ids in pagination order. -/
def seqTaskList (fx : Fixture) : List (String × String) :=
  fx.spaces.flatMap (fun s =>
    ((iterObjectIds (fx.server s) fx.fuel 0).ids).map (fun o => (s, o)))

/-- Task-creation order of `alazy_load`: spaces in resolved order, each
space's ids in (async) pagination order. -/
def aTaskList (fx : Fixture) : List (String × String) :=
  fx.spaces.flatMap (fun s =>
    ((aIterObjectIds (fx.server s) fx.fuel 0).ids).map (fun o => (s, o)))

/-- The record stream of `lazy_load` over a list of (space, object)
pairs: fetch each in order, drop skipped items, abort on a raised
error. -/
def collectLoad (nameMap : List (String × String)) (detail : String → String → J) :
    List (String × String) → Except String (List FetchRecord)
  | [] => .ok []
  | (s, o) :: rest =>
    match fetchObject nameMap s o (detail s o) with
    | .ok pr =>
      match collectLoad nameMap detail rest with
      | .ok rs =>
        match pr.1 with
        | some r => .ok (r :: rs)
        | none => .ok rs
      | .error e => .error e
    | .error e => .error e

/-- The record stream of `alazy_load` over the tasks in completion
order: each task ran `_afetch_object`; skipped items yield nothing and
a failed task's error surfaces when it is awaited. -/
def collectALoad (nameMap : List (String × String)) (detail : String → String → J) :
    List (String × String) → Except String (List FetchRecord)
  | [] => .ok []
  | (s, o) :: rest =>
    match afetchObject nameMap s o (detail s o) with
    | .ok pr =>
      match collectALoad nameMap detail rest with
      | .ok rs =>
        match pr.1 with
        | some r => .ok (r :: rs)
        | none => .ok rs
      | .error e => .error e
    | .error e => .error e

/-- `lazy_load` on a fixture. -/
def runSeqLoad (fx : Fixture) : Except String (List FetchRecord) :=
  collectLoad fx.nameMap fx.detail (seqTaskList fx)

/-- `alazy_load` on a fixture, with `order` the completion order in
which `asyncio.as_completed` hands back the tasks. -/
def runALoad (fx : Fixture) (order : List (String × String)) :
    Except String (List FetchRecord) :=
  collectALoad fx.nameMap fx.detail order

/-- Record produced (if any) for one (space, object) task. -/
def recOf (nameMap : List (String × String)) (detail : String → String → J)
    (t : String × String) : Option FetchRecord :=
  match fetchObject nameMap t.1 t.2 (detail t.1 t.2) with
  | .ok pr => pr.1
  | .error _ => none

/-- Default page used only to state bounded quantifications via `getD`. -/
def defaultPage : Page := ⟨[], false⟩

/-- The metadata keys `_extract_properties` can produce. -/
def extractedKeys : List String :=
  ["tags", "description", "created_at", "updated_at", "last_opened_at"]

/-- The fixed property-list input of the spec's normalizer example. -/
def fixtureProps : J :=
  J.arr
    [J.obj [("key", J.str "tag"),
            ("multi_select",
             J.arr [J.obj [("name", J.str "alpha")], J.obj [("name", J.str "beta")]])],
     J.obj [("key", J.str "created_date"), ("format", J.str "date"),
            ("date", J.str "2024-01-01")],
     J.obj [("key", J.str "ignored"), ("format", J.str "objects")]]

/-- A two-page well-formed response sequence (concrete witness input). -/
def psW : List Page := [⟨["a", "b"], true⟩, ⟨["c"], false⟩]

/-- A server serving `psW` back to back at offsets 0 and 2. -/
def serverW : Nat → Page := fun o =>
  if o = 0 then ⟨["a", "b"], true⟩ else if o = 2 then ⟨["c"], false⟩ else ⟨[], false⟩

/-- A misbehaving server: always zero ids with `has_more` true. -/
def badServer : Nat → Page := fun _ => ⟨[], true⟩

/-- A well-formed item object body (concrete witness input). -/
def okvsW : List (String × J) :=
  [("markdown", J.str "hello"), ("name", J.str "Doc"),
   ("archived", J.bool false), ("type", J.obj [("name", J.str "Page")])]

/-- Detail body wrapping `okvsW` (concrete witness input). -/
def bodyW : J := J.obj [("object", J.obj okvsW)]

/-- The record `_fetch_object` emits for `bodyW` (concrete witness value). -/
def recW : FetchRecord :=
  ⟨"hello", baseMetadata [("s1", "Space")] "s1" "o1" okvsW⟩

/-- A one-space, two-item fixture (concrete witness input). -/
def fxW : Fixture :=
  ⟨["s1"],
   fun _ o => if o = 0 then ⟨["o1", "o2"], false⟩ else ⟨[], false⟩,
   1,
   fun _ _ => J.obj [("object", J.obj [("markdown", J.str "m")])],
   [("s1", "Space")]⟩

/-! ## Theorems -/

theorem extractStep_hashable_ok (kvs acc : List (String × J))
    (h : ∀ v, lookupField kvs "key" = some v → v.hashable = true) :
    ∃ acc2, extractStep kvs acc = .ok acc2 := by
  unfold extractStep
  rcases hk : lookupField kvs "key" with _ | (_ | b | n | s | xs | okvs2) <;>
    simp only [hk]
  · exact ⟨acc, rfl⟩
  · exact ⟨acc, rfl⟩
  · exact ⟨acc, rfl⟩
  · exact ⟨acc, rfl⟩
  · exact ⟨extractStrKey kvs s acc, rfl⟩
  · have := h (J.arr xs) hk
    simp [J.hashable] at this
  · have := h (J.obj okvs2) hk
    simp [J.hashable] at this

theorem extractLoop_hashable_total (entries : List (List (String × J))) :
    ∀ acc, (∀ e ∈ entries, ∀ v, lookupField e "key" = some v → v.hashable = true) →
      ∃ out, extractLoop (entries.map J.obj) acc = .ok out := by
  induction entries with
  | nil => intro acc _; exact ⟨acc, rfl⟩
  | cons e es ih =>
    intro acc h
    obtain ⟨acc2, hs⟩ := extractStep_hashable_ok e acc (h e (List.mem_cons_self e es))
    obtain ⟨out, hout⟩ := ih acc2 (fun e2 he2 => h e2 (List.mem_cons_of_mem _ he2))
    refine ⟨out, ?_⟩
    simp only [List.map_cons, extractLoop, hs]
    exact hout

/-- C8 counterexample: a property dict whose `key` value is a list
makes `_extract_properties` raise — the set-membership test
`key not in allowed_keys` hashes the key, and a list is unhashable —
so the normalizer is not total on arbitrary property lists. -/
theorem extractProperties_unhashable_key_raises :
    extractProperties (J.arr [J.obj [("key", J.arr [])]]) =
      .error "TypeError: unhashable type: list" := rfl

/-- C8 amended: `_extract_properties` never raises on a properties list
(list of property dicts) in which every entry's `key` value is
hashable — in JSON terms, not a list or dict — nor on a non-list input
(which returns `{}`); a list- or dict-valued `key` makes the
set-membership test raise `TypeError`.  On the spec's fixed example
input it returns exactly
`{"tags": ["alpha", "beta"], "created_at": "2024-01-01"}`; keys outside
the allow-list and allow-listed keys with unsupported formats are
dropped silently. -/
theorem extractProperties_total_fixture :
    (∀ entries : List (List (String × J)),
        (∀ e ∈ entries, ∀ v, lookupField e "key" = some v → v.hashable = true) →
        ∃ out, extractProperties (J.arr (entries.map J.obj)) = .ok out) ∧
    (∀ j : J, (∀ xs, j ≠ J.arr xs) → extractProperties j = .ok []) ∧
    extractProperties fixtureProps =
      .ok [("tags", J.arr [J.str "alpha", J.str "beta"]),
           ("created_at", J.str "2024-01-01")] := by
  refine ⟨fun entries h => extractLoop_hashable_total entries [] h, ?_, rfl⟩
  intro j h
  cases j with
  | arr xs => exact absurd rfl (h xs)
  | _ => rfl

theorem extractProperties_total_fixture_witness :
    (∃ out, extractProperties (J.arr ([[("key", J.str "x")]].map J.obj)) = .ok out) ∧
    extractProperties J.null = .ok [] :=
  ⟨extractProperties_total_fixture.1 [[("key", J.str "x")]]
      (by
        intro e he v hv
        rw [List.mem_singleton] at he
        subst he
        have h2 : some (J.str "x") = some v := hv
        injection h2 with h3
        rw [← h3]
        rfl),
   extractProperties_total_fixture.2.1 J.null (fun _ h => J.noConfusion h)⟩

/-- C10: a property entry whose key is `description`, `created_date`,
`last_modified_date` or `last_opened_date` with format `date` or `text`
but with no field named after that format still gets its (renamed)
output key inserted with a null value, instead of being dropped. -/
theorem extractProperties_missing_value_null (kvs : List (String × J)) (key fmt : String)
    (hk : lookupField kvs "key" = some (J.str key))
    (hkey : key = "description" ∨ key = "created_date" ∨
            key = "last_modified_date" ∨ key = "last_opened_date")
    (hf : lookupField kvs "format" = some (J.str fmt))
    (hfmt : fmt = "date" ∨ fmt = "text")
    (hmiss : lookupField kvs fmt = none) :
    extractProperties (J.arr [J.obj kvs]) = .ok [(renameKey key, J.null)] := by
  have hall : key ∈ allowedKeys := by
    rcases hkey with rfl | rfl | rfl | rfl <;> decide
  have htag : ¬(key = "tag") := by
    rcases hkey with rfl | rfl | rfl | rfl <;> decide
  have hstep2 : extractStep kvs [] = .ok (extractStrKey kvs key []) := by
    unfold extractStep
    simp only [hk]
  have hstep : extractStrKey kvs key [] = [(renameKey key, J.null)] := by
    unfold extractStrKey
    rw [if_pos hall, if_neg htag]
    simp only [hf]
    rw [if_pos hfmt]
    simp only [jget, hmiss, Option.getD]
    rfl
  show extractLoop [J.obj kvs] [] = .ok [(renameKey key, J.null)]
  have h1 : extractLoop [J.obj kvs] [] = extractLoop [] (extractStrKey kvs key []) := by
    show (match extractStep kvs [] with
          | .ok acc2 => extractLoop [] acc2
          | .error e => .error e) = _
    rw [hstep2]
  rw [h1, hstep]
  rfl

theorem extractProperties_missing_value_null_witness :
    extractProperties
        (J.arr [J.obj [("key", J.str "created_date"), ("format", J.str "date")]]) =
      .ok [("created_at", J.null)] :=
  extractProperties_missing_value_null
    [("key", J.str "created_date"), ("format", J.str "date")]
    "created_date" "date" rfl (Or.inr (Or.inl rfl)) rfl (Or.inl rfl) rfl

/-- C7 counterexample: a listing body whose `data` section is a list
containing an entry without an `id` makes `_parse_objects_response`
raise (`KeyError`), rather than being treated as an empty result. -/
theorem parseObjectsResponse_entry_raises :
    parseObjectsResponse (J.obj [("data", J.arr [J.obj []])]) = .error "KeyError: id" := rfl

theorem collectIds_ok (objects : List J)
    (h : ∀ o ∈ objects, ∃ okvs v, o = J.obj okvs ∧ lookupField okvs "id" = some v) :
    ∃ ids, collectIds objects = .ok ids := by
  induction objects with
  | nil => exact ⟨[], rfl⟩
  | cons o rest ih =>
    obtain ⟨okvs, v, rfl, hid⟩ := h o (List.mem_cons_self o rest)
    obtain ⟨ids, hids⟩ := ih (fun o' ho' => h o' (List.mem_cons_of_mem _ ho'))
    exact ⟨v :: ids, by simp [collectIds, hid, hids]⟩

/-- C7 amended: `_parse_objects_response` never raises on a body that is
not a dict, or whose `data` section is missing or not a list — those
are treated as an empty result (no ids, `has_more` false) with a
non-fatal diagnostic; but when `data` is a list, a malformed entry
(without an `id` field) raises rather than being tolerated, and the
parser succeeds when every entry is a dict carrying an `id`. -/
theorem parseObjectsResponse_tolerant :
    (∀ data : J, (∀ kvs, data ≠ J.obj kvs) →
        parseObjectsResponse data = .ok ⟨[], false, true⟩) ∧
    (∀ kvs, (∀ xs, lookupField kvs "data" ≠ some (J.arr xs)) →
        parseObjectsResponse (J.obj kvs) = .ok ⟨[], false, true⟩) ∧
    (∀ kvs objects, lookupField kvs "data" = some (J.arr objects) →
        (∀ o ∈ objects, ∃ okvs v, o = J.obj okvs ∧ lookupField okvs "id" = some v) →
        ∃ ids, parseObjectsResponse (J.obj kvs) = .ok ⟨ids, pageHasMore kvs, false⟩) := by
  refine ⟨?_, ?_, ?_⟩
  · intro data h
    cases data with
    | obj kvs => exact absurd rfl (h kvs)
    | _ => rfl
  · intro kvs h
    rcases hv : lookupField kvs "data" with _ | (_ | b | n | s | xs | kvs2)
    case arr => exact absurd hv (h _)
    all_goals simp [parseObjectsResponse, hv]
  · intro kvs objects hd hwf
    obtain ⟨ids, hids⟩ := collectIds_ok objects hwf
    simp only [parseObjectsResponse, hd, hids]
    exact ⟨ids, rfl⟩

theorem parseObjectsResponse_tolerant_witness :
    parseObjectsResponse (J.str "nope") = .ok ⟨[], false, true⟩ ∧
    parseObjectsResponse (J.obj []) = .ok ⟨[], false, true⟩ ∧
    (∃ ids, parseObjectsResponse (J.obj [("data", J.arr [J.obj [("id", J.str "a")]])]) =
        .ok ⟨ids, pageHasMore [("data", J.arr [J.obj [("id", J.str "a")]])], false⟩) :=
  ⟨parseObjectsResponse_tolerant.1 _ (fun _ h => J.noConfusion h),
   parseObjectsResponse_tolerant.2.1 [] (fun _ h => Option.noConfusion h),
   parseObjectsResponse_tolerant.2.2 _ _ rfl
     (by
       intro o ho
       rw [List.mem_singleton] at ho
       subst ho
       exact ⟨[("id", J.str "a")], J.str "a", rfl, rfl⟩)⟩

theorem requestLoop_spec (resp : Nat → Nat) (b : Nat) :
    ∀ budget attempt call, ∃ k, k ≤ budget ∧
      (∀ i, i < k → retryable (resp (call + i)) = true) ∧
      (k < budget → retryable (resp (call + k)) = false) ∧
      requestLoop resp b budget attempt call =
        (raiseForStatus (resp (call + k)),
         (List.range k).map (fun i => b * (attempt + 1 + i))) := by
  intro budget
  induction budget with
  | zero =>
    intro attempt call
    exact ⟨0, Nat.le_refl 0, fun i hi => absurd hi (Nat.not_lt_zero i),
           fun hh => absurd hh (Nat.not_lt_zero 0), by simp [requestLoop]⟩
  | succ n ih =>
    intro attempt call
    cases hr : retryable (resp call) with
    | false =>
      refine ⟨0, Nat.zero_le _, fun i hi => absurd hi (Nat.not_lt_zero i),
              fun _ => by simpa using hr, ?_⟩
      simp [requestLoop, hr]
    | true =>
      obtain ⟨k, hk, hall, hstop, heq⟩ := ih (attempt + 1) (call + 1)
      refine ⟨k + 1, by omega, ?_, ?_, ?_⟩
      · intro i hi
        cases i with
        | zero => simpa using hr
        | succ j =>
          have hj := hall j (by omega)
          have harith : call + 1 + j = call + (j + 1) := by omega
          rwa [harith] at hj
      · intro hh
        have hs := hstop (by omega)
        have harith : call + 1 + k = call + (k + 1) := by omega
        rwa [harith] at hs
      · have harith : call + 1 + k = call + (k + 1) := by omega
        rw [show requestLoop resp b (n + 1) attempt call =
              ((requestLoop resp b n (attempt + 1) (call + 1)).1,
               b * (attempt + 1) :: (requestLoop resp b n (attempt + 1) (call + 1)).2) by
            simp [requestLoop, hr]]
        rw [heq, harith]
        refine congrArg _ ?_
        rw [List.range_succ_eq_map, List.map_cons, List.map_map]
        refine congrArg₂ _ (by simp) ?_
        refine List.map_congr_left ?_
        intro i _
        exact congrArg (b * ·) (by omega)

/-- C5: `_request_with_retries` retries a 429/503 status with identical
parameters while fewer than `max_retries = 3` retries have been used,
sleeping `backoff * attempt` with the attempt counter starting at 1;
`_raise_for_status` then classifies the final response: status < 400
succeeds, 401/403 raise the authentication error, any other status
≥ 400 raises the generic API error.  In particular a 429 followed by a
200 returns the 200 response after one backoff sleep, and a 429
repeated `budget + 1` times raises the API error for the final 429
after sleeps 1, 2, 3. -/
theorem requestWithRetries_spec :
    (∀ s, s < 400 → raiseForStatus s = .success s) ∧
    (raiseForStatus 401 = .authError 401 ∧ raiseForStatus 403 = .authError 403) ∧
    (∀ s, 400 ≤ s → s ≠ 401 → s ≠ 403 → raiseForStatus s = .apiError s) ∧
    (∀ resp b, ∃ k, k ≤ 3 ∧
        (∀ i, i < k → retryable (resp i) = true) ∧
        (k < 3 → retryable (resp k) = false) ∧
        requestWithRetries resp 3 b =
          (raiseForStatus (resp k), (List.range k).map (fun i => b * (1 + i)))) ∧
    requestWithRetries (fun i => if i = 0 then 429 else 200) 3 1 = (.success 200, [1]) ∧
    requestWithRetries (fun _ => 429) 3 1 = (.apiError 429, [1, 2, 3]) := by
  refine ⟨?_, ⟨rfl, rfl⟩, ?_, ?_, by decide, by decide⟩
  · intro s hs
    simp [raiseForStatus, hs]
  · intro s hs h1 h3
    rw [raiseForStatus, if_neg (by omega), if_neg (by tauto)]
  · intro resp b
    obtain ⟨k, hk, hall, hstop, heq⟩ := requestLoop_spec resp b 3 0 0
    refine ⟨k, hk, ?_, ?_, ?_⟩
    · intro i hi
      have := hall i hi
      simpa using this
    · intro hh
      have := hstop hh
      simpa using this
    · rw [requestWithRetries, heq]
      simp

theorem requestWithRetries_spec_witness :
    raiseForStatus 200 = .success 200 ∧
    raiseForStatus 500 = .apiError 500 ∧
    (∃ k, k ≤ 3 ∧
        (∀ i, i < k → retryable ((fun _ => 200) i) = true) ∧
        (k < 3 → retryable ((fun _ => 200) k) = false) ∧
        requestWithRetries (fun _ => 200) 3 7 =
          (raiseForStatus ((fun _ => 200) k), (List.range k).map (fun i => 7 * (1 + i)))) :=
  ⟨requestWithRetries_spec.1 200 (by omega),
   requestWithRetries_spec.2.2.1 500 (by omega) (by omega) (by omega),
   requestWithRetries_spec.2.2.2.1 (fun _ => 200) 7⟩

theorem offsetAt_cons_succ (p : Page) (rest : List Page) (k : Nat) :
    offsetAt (p :: rest) (k + 1) = p.ids.length + offsetAt rest k := by
  simp [offsetAt]

theorem iter_complete_aux (ps : List Page) :
    ∀ (server : Nat → Page) (base : Nat),
      ps ≠ [] →
      (∀ k, k < ps.length → server (base + offsetAt ps k) = ps.getD k defaultPage) →
      (∀ k, k < ps.length →
        (ps.getD k defaultPage).hasMore = decide (k + 1 < ps.length)) →
      iterObjectIds server ps.length base =
        ⟨(ps.map Page.ids).flatten,
         (List.range ps.length).map (fun k => base + offsetAt ps k), true⟩ := by
  induction ps with
  | nil => intro server base h; exact absurd rfl h
  | cons p rest ih =>
    intro server base _ hserv hmore
    have hp : server base = p := by
      have h0 := hserv 0 (by simp)
      simpa [offsetAt] using h0
    rcases eq_or_ne rest [] with rfl | hne
    · have hm : p.hasMore = false := by
        have := hmore 0 (by simp)
        simpa using this
      show iterObjectIds server 1 base = _
      simp [iterObjectIds, hp, hm, offsetAt, List.range_succ]
    · have hlen : 0 < rest.length := List.length_pos.mpr hne
      have hm : p.hasMore = true := by
        have := hmore 0 (by simp)
        simp only [List.getD_cons_zero] at this
        rw [this]
        simp [hlen]
      have hserv2 : ∀ k, k < rest.length →
          server (base + p.ids.length + offsetAt rest k) = rest.getD k defaultPage := by
        intro k hk
        have := hserv (k + 1) (by simpa using Nat.succ_lt_succ hk)
        rw [offsetAt_cons_succ] at this
        rw [Nat.add_assoc]
        simpa using this
      have hmore2 : ∀ k, k < rest.length →
          (rest.getD k defaultPage).hasMore = decide (k + 1 < rest.length) := by
        intro k hk
        have := hmore (k + 1) (by simpa using Nat.succ_lt_succ hk)
        simp only [List.getD_cons_succ] at this
        rw [this]
        simp [Nat.succ_lt_succ_iff]
      have ihr := ih server (base + p.ids.length) hne hserv2 hmore2
      show iterObjectIds server (rest.length + 1) base = _
      have hunf : iterObjectIds server (rest.length + 1) base =
          ⟨p.ids ++ (iterObjectIds server rest.length (base + p.ids.length)).ids,
           base :: (iterObjectIds server rest.length (base + p.ids.length)).offsets,
           (iterObjectIds server rest.length (base + p.ids.length)).stopped⟩ := by
        simp [iterObjectIds, hp, hm]
      have hids : p.ids ++ (List.map Page.ids rest).flatten =
          (List.map Page.ids (p :: rest)).flatten := by simp
      have hoffs : base :: List.map (fun k => base + p.ids.length + offsetAt rest k)
            (List.range rest.length) =
          List.map (fun k => base + offsetAt (p :: rest) k)
            (List.range (rest.length + 1)) := by
        rw [List.range_succ_eq_map, List.map_cons, List.map_map]
        have h1 : base + offsetAt (p :: rest) 0 = base := by simp [offsetAt]
        have h2 : List.map (fun k => base + p.ids.length + offsetAt rest k)
              (List.range rest.length) =
            List.map ((fun k => base + offsetAt (p :: rest) k) ∘ Nat.succ)
              (List.range rest.length) := by
          refine List.map_congr_left ?_
          intro k _
          simp only [Function.comp_apply, Nat.succ_eq_add_one, offsetAt_cons_succ]
          omega
        rw [h1, h2]
      rw [hunf, ihr, hids, hoffs]
      rfl

/-- C1: for every finite well-formed sequence of pages (each page at
its back-to-back offset, `has_more` true exactly before the last), the
driver `_iter_object_ids` yields exactly the concatenation of the
per-page id lists in page order (so its length is the sum of per-page
counts), requests page offsets 0, |p₀|, |p₀|+|p₁|, … — advancing by the
number of ids actually returned — makes exactly one request per page
(stopping precisely when `has_more` is false), and exits its loop. -/
theorem iterObjectIds_complete (server : Nat → Page) (ps : List Page)
    (hne : ps ≠ [])
    (hserv : ∀ k, k < ps.length → server (offsetAt ps k) = ps.getD k defaultPage)
    (hmore : ∀ k, k < ps.length →
      (ps.getD k defaultPage).hasMore = decide (k + 1 < ps.length)) :
    iterObjectIds server ps.length 0 =
      ⟨(ps.map Page.ids).flatten, (List.range ps.length).map (offsetAt ps), true⟩ ∧
    (iterObjectIds server ps.length 0).ids.length =
      (ps.map (fun p => p.ids.length)).sum := by
  have h := iter_complete_aux ps server 0 hne (by simpa using hserv) hmore
  have h2 : iterObjectIds server ps.length 0 =
      ⟨(ps.map Page.ids).flatten, (List.range ps.length).map (offsetAt ps), true⟩ := by
    rw [h]
    refine congrArg₂ _ ?_ rfl
    refine List.map_congr_left ?_
    intro k _
    simp
  refine ⟨h2, ?_⟩
  rw [h2]
  simp only [List.length_flatten, List.map_map]
  refine congrArg List.sum (List.map_congr_left ?_)
  intro p _
  rfl

theorem iterObjectIds_complete_witness :
    iterObjectIds serverW 2 0 = ⟨["a", "b", "c"], [0, 2], true⟩ ∧
    (iterObjectIds serverW 2 0).ids.length = 3 := by
  have h := iterObjectIds_complete serverW psW (by decide) (by decide) (by decide)
  exact ⟨h.1.trans (by decide), h.2.trans (by decide)⟩

theorem badServer_never_stops :
    ∀ fuel offset, (iterObjectIds badServer fuel offset).stopped = false := by
  intro fuel
  induction fuel with
  | zero => intro offset; rfl
  | succ n ih => intro offset; simp [iterObjectIds, badServer, ih]

/-- C4 counterexample: on the misbehaving server that always returns
zero ids with `has_more` true, the driver does not stop — it keeps
re-requesting offset 0 forever (no zero-new-ids termination guard
exists in this revision). -/
theorem iterObjectIds_no_zero_guard_cex :
    iterObjectIds badServer 3 0 = ⟨[], [0, 0, 0], false⟩ ∧
    ¬ ∃ fuel, (iterObjectIds badServer fuel 0).stopped = true := by
  refine ⟨by decide, ?_⟩
  rintro ⟨fuel, h⟩
  rw [badServer_never_stops] at h
  exact Bool.noConfusion h

/-- C4 amended: the driver stops exactly when one of the pages it
requested reports `has_more` false (and it does stop as soon as that
happens); a page returning zero new ids with `has_more` true does NOT
stop it, so the loop terminates only for response sequences that
eventually report `has_more` false and an infinite request loop is
possible on a misbehaving server. -/
theorem iterObjectIds_stops_iff (server : Nat → Page) :
    (∀ fuel offset, (iterObjectIds server fuel offset).stopped = true ↔
        ∃ o ∈ (iterObjectIds server fuel offset).offsets, (server o).hasMore = false) ∧
    (∀ fuel offset, (server offset).hasMore = false →
        (iterObjectIds server (fuel + 1) offset).stopped = true) := by
  constructor
  · intro fuel
    induction fuel with
    | zero => intro offset; simp [iterObjectIds]
    | succ n ih =>
      intro offset
      cases hm : (server offset).hasMore with
      | true =>
        simp only [iterObjectIds, hm, if_true]
        rw [ih]
        simp [List.mem_cons, hm]
      | false =>
        simp [iterObjectIds, hm]
  · intro fuel offset h
    simp [iterObjectIds, h]

theorem iterObjectIds_stops_iff_witness :
    (iterObjectIds (fun _ => Page.mk ["a"] false) 1 0).stopped = true :=
  (iterObjectIds_stops_iff (fun _ => Page.mk ["a"] false)).2 0 0 rfl

theorem semStep_inFlight {M : Nat} {s t : List TaskPhase}
    (h : SemStep M s t) (hs : inFlight s ≤ M) : inFlight t ≤ M := by
  cases h with
  | acquire l r hlt =>
    have he : inFlight (l ++ TaskPhase.running :: r) =
        inFlight (l ++ TaskPhase.pending :: r) + 1 := by
      simp only [inFlight, List.count_append, List.count_cons]
      simp
      omega
    omega
  | finish l r =>
    have he : inFlight (l ++ TaskPhase.done :: r) + 1 =
        inFlight (l ++ TaskPhase.running :: r) := by
      simp only [inFlight, List.count_append, List.count_cons]
      simp
      omega
    omega

/-- C3: in the bounded-concurrency mode, every fetch task must acquire
the semaphore (possible only while fewer than `M` permits are held)
before its HTTP call and releases it on completion or failure; along
every execution of the task system from the all-pending initial state,
at most `M` fetches are ever simultaneously in flight. -/
theorem semaphore_bound (n M : Nat) (st : List TaskPhase)
    (h : Relation.ReflTransGen (SemStep M) (List.replicate n TaskPhase.pending) st) :
    inFlight st ≤ M := by
  induction h with
  | refl => simp [inFlight, List.count_replicate]
  | tail _h1 hstep ih => exact semStep_inFlight hstep ih

theorem semaphore_bound_witness :
    inFlight [TaskPhase.running, TaskPhase.pending] ≤ 1 :=
  semaphore_bound 2 1 _
    (Relation.ReflTransGen.single
      (SemStep.acquire [] [TaskPhase.pending] (by decide)))

theorem lookupField_insertKV_ne (m : List (String × J)) (k k2 : String) (v : J)
    (h : k2 ≠ k) : lookupField (insertKV m k v) k2 = lookupField m k2 := by
  induction m with
  | nil => simp [insertKV, lookupField, Ne.symm h]
  | cons kv rest ih =>
    obtain ⟨k0, v0⟩ := kv
    by_cases hk : k0 = k
    · subst hk
      simp [insertKV, lookupField, Ne.symm h]
    · by_cases h2 : k0 = k2 <;> simp [insertKV, lookupField, hk, h2, ih, h]

theorem mem_insertKV (m : List (String × J)) (k : String) (v : J) (kv : String × J)
    (h : kv ∈ insertKV m k v) : kv ∈ m ∨ kv.1 = k := by
  induction m with
  | nil =>
    simp [insertKV] at h
    subst h
    exact Or.inr rfl
  | cons kv0 rest ih =>
    obtain ⟨k0, v0⟩ := kv0
    by_cases hk : k0 = k
    · subst hk
      simp only [insertKV, if_pos rfl] at h
      rcases List.mem_cons.mp h with rfl | hm
      · exact Or.inr rfl
      · exact Or.inl (List.mem_cons_of_mem _ hm)
    · simp only [insertKV, if_neg hk] at h
      rcases List.mem_cons.mp h with rfl | hm
      · exact Or.inl (List.mem_cons_self _ _)
      · rcases ih hm with hin | hk2
        · exact Or.inl (List.mem_cons_of_mem _ hin)
        · exact Or.inr hk2

theorem renameKey_mem (key : String) (h1 : key ∈ allowedKeys) (h2 : ¬(key = "tag")) :
    renameKey key ∈ extractedKeys := by
  simp only [allowedKeys, List.mem_cons, List.mem_singleton] at h1
  rcases h1 with rfl | rfl | rfl | rfl | (rfl | h1)
  · exact absurd rfl h2
  · decide
  · decide
  · decide
  · decide
  · exact absurd h1 (List.not_mem_nil key)

theorem mem_extractStrKey (kvs : List (String × J)) (s : String)
    (acc : List (String × J)) (kv : String × J)
    (h : kv ∈ extractStrKey kvs s acc) : kv ∈ acc ∨ kv.1 ∈ extractedKeys := by
  unfold extractStrKey at h
  by_cases ha : s ∈ allowedKeys
  · rw [if_pos ha] at h
    by_cases ht : s = "tag"
    · rw [if_pos ht] at h
      rcases hm : lookupField kvs "multi_select" with _ | (_ | b2 | n2 | s2 | items | o2)
      · simp only [hm] at h; exact Or.inl h
      · simp only [hm] at h; exact Or.inl h
      · simp only [hm] at h; exact Or.inl h
      · simp only [hm] at h; exact Or.inl h
      · simp only [hm] at h; exact Or.inl h
      · -- arr items
        simp only [hm] at h
        by_cases he : (tagNames items).isEmpty = true
        · rw [if_pos he] at h; exact Or.inl h
        · rw [if_neg he] at h
          rcases mem_insertKV _ _ _ _ h with hin | h1
          · exact Or.inl hin
          · refine Or.inr ?_
            rw [h1]
            decide
      · simp only [hm] at h; exact Or.inl h
    · rw [if_neg ht] at h
      rcases hf : lookupField kvs "format" with _ | (_ | b2 | n2 | fmt | xs2 | o2)
      · simp only [hf] at h; exact Or.inl h
      · simp only [hf] at h; exact Or.inl h
      · simp only [hf] at h; exact Or.inl h
      · simp only [hf] at h; exact Or.inl h
      · -- string format
        simp only [hf] at h
        by_cases hd : fmt = "date" ∨ fmt = "text"
        · rw [if_pos hd] at h
          rcases mem_insertKV _ _ _ _ h with hin | h1
          · exact Or.inl hin
          · refine Or.inr ?_
            rw [h1]
            exact renameKey_mem s ha ht
        · rw [if_neg hd] at h; exact Or.inl h
      · simp only [hf] at h; exact Or.inl h
      · simp only [hf] at h; exact Or.inl h
  · rw [if_neg ha] at h; exact Or.inl h

theorem mem_extractStep_ok (kvs acc acc2 : List (String × J)) (kv : String × J)
    (hs : extractStep kvs acc = .ok acc2) (h : kv ∈ acc2) :
    kv ∈ acc ∨ kv.1 ∈ extractedKeys := by
  unfold extractStep at hs
  rcases hk : lookupField kvs "key" with _ | (_ | b | n | s | xs | okvs2) <;>
    simp only [hk] at hs
  all_goals try exact Except.noConfusion hs
  all_goals first
    | (injection hs with h2
       subst h2
       exact Or.inl h)
    | (injection hs with h2
       subst h2
       exact mem_extractStrKey kvs s acc kv h)

theorem extractLoop_keys (props : List J) :
    ∀ acc out, extractLoop props acc = .ok out →
      ∀ kv ∈ out, kv ∈ acc ∨ kv.1 ∈ extractedKeys := by
  induction props with
  | nil =>
    intro acc out h kv hkv
    have h2 : Except.ok (ε := String) acc = Except.ok out := h
    injection h2 with h3
    subst h3
    exact Or.inl hkv
  | cons p rest ih =>
    intro acc out h kv hkv
    cases p
    case obj kvs =>
      have h2 : (match extractStep kvs acc with
                 | .ok acc2 => extractLoop rest acc2
                 | .error e => .error e) = .ok out := h
      rcases hs : extractStep kvs acc with e | acc2
      · rw [hs] at h2
        exact Except.noConfusion h2
      · rw [hs] at h2
        have h3 : extractLoop rest acc2 = .ok out := h2
        rcases ih acc2 out h3 kv hkv with hin | hx
        · exact mem_extractStep_ok kvs acc acc2 kv hs hin
        · exact Or.inr hx
    all_goals exact Except.noConfusion h

theorem extractProperties_keys (j : J) (props : List (String × J))
    (h : extractProperties j = .ok props) : ∀ kv ∈ props, kv.1 ∈ extractedKeys := by
  intro kv hkv
  cases j
  case arr xs =>
    have h2 : extractLoop xs [] = .ok props := h
    rcases extractLoop_keys xs [] props h2 kv hkv with hin | hx
    · exact absurd hin (List.not_mem_nil kv)
    · exact hx
  all_goals {
    have h2 : Except.ok (ε := String) ([] : List (String × J)) = Except.ok props := h
    injection h2 with h3
    subst h3
    exact absurd hkv (List.not_mem_nil kv)
  }

theorem lookupField_foldl_insert (props : List (String × J)) :
    ∀ (base : List (String × J)) (k : String),
      (∀ kv ∈ props, kv.1 ∈ extractedKeys) → k ∉ extractedKeys →
      lookupField (props.foldl (fun m kv => insertKV m kv.1 kv.2) base) k =
        lookupField base k := by
  induction props with
  | nil => intro base k _ _; rfl
  | cons kv0 rest ih =>
    intro base k hall hk
    have h1 := ih (insertKV base kv0.1 kv0.2) k
      (fun kv hkv => hall kv (List.mem_cons_of_mem _ hkv)) hk
    have h2 : lookupField (insertKV base kv0.1 kv0.2) k = lookupField base k :=
      lookupField_insertKV_ne _ _ _ _
        (fun he => hk (he ▸ hall kv0 (List.mem_cons_self _ _)))
    exact h1.trans h2

theorem lookupField_mergeProps (base props : List (String × J)) (k : String)
    (hprops : ∀ kv ∈ props, kv.1 ∈ extractedKeys) (hk : k ∉ extractedKeys) :
    lookupField (mergeProps base props) k = lookupField base k := by
  unfold mergeProps
  split
  · rfl
  · exact lookupField_foldl_insert props base k hprops hk

/-- C9: every record the loader emits carries the metadata keys
`space_id`, `space_name`, `object_id`, `id`, `name`, `archived` and
`type`, with `id` holding the same value as `object_id`; each of the
seven still holds exactly the value of the base metadata dict literal
after the property merge — the merged property-derived keys (`tags`,
`description`, `created_at`, `updated_at`, `last_opened_at`) never
remove or replace any of the seven. -/
theorem fetchObject_metadata_keys (nameMap : List (String × String))
    (spaceId objectId : String) (body : J) (r : FetchRecord) (ws : List String)
    (h : fetchObject nameMap spaceId objectId body = .ok (some r, ws)) :
    ∃ okvs, objectField body = J.obj okvs ∧
      lookupField r.metadata "space_id" = some (J.str spaceId) ∧
      lookupField r.metadata "space_name" = some (spaceNameJ nameMap spaceId) ∧
      lookupField r.metadata "object_id" = some (J.str objectId) ∧
      lookupField r.metadata "id" = some (J.str objectId) ∧
      lookupField r.metadata "name" =
        some (if (jget okvs "name").truthy then jget okvs "name" else J.str "untitled") ∧
      lookupField r.metadata "archived" = some (J.bool (jget okvs "archived").truthy) ∧
      lookupField r.metadata "type" =
        some (if (typeField okvs).isNull then J.str "unknown" else typeField okvs) := by
  unfold fetchObject at h
  rcases ho : objectField body with _ | b | n | s | xs | okvs <;> simp only [ho] at h
  all_goals try exact Except.noConfusion h
  by_cases hmd : (jget okvs "markdown").isNull = true
  · rw [if_pos hmd] at h
    injection h with h3
    injection h3 with h4 h5
    exact Option.noConfusion h4
  · rw [if_neg hmd] at h
    rcases hp : extractProperties (jget okvs "properties") with e | props
    · rw [hp] at h
      exact Except.noConfusion h
    · rw [hp] at h
      have h2 : Except.ok (ε := String)
          (some (FetchRecord.mk (pyStr (jget okvs "markdown"))
             (mergeProps (baseMetadata nameMap spaceId objectId okvs) props)),
           fetchWarnings objectId okvs) = Except.ok (some r, ws) := h
      injection h2 with h3
      injection h3 with h4 h5
      injection h4 with h6
      have hmeta : r.metadata =
          mergeProps (baseMetadata nameMap spaceId objectId okvs) props := by
        rw [← h6]
      have hkeys := extractProperties_keys _ _ hp
      refine ⟨okvs, rfl, ?_, ?_, ?_, ?_, ?_, ?_, ?_⟩ <;>
        · rw [hmeta, lookupField_mergeProps _ _ _ hkeys (by decide)]
          rfl

theorem fetchObject_metadata_keys_witness :
    ∃ okvs, objectField bodyW = J.obj okvs ∧
      lookupField recW.metadata "space_id" = some (J.str "s1") ∧
      lookupField recW.metadata "space_name" = some (spaceNameJ [("s1", "Space")] "s1") ∧
      lookupField recW.metadata "object_id" = some (J.str "o1") ∧
      lookupField recW.metadata "id" = some (J.str "o1") ∧
      lookupField recW.metadata "name" =
        some (if (jget okvs "name").truthy then jget okvs "name" else J.str "untitled") ∧
      lookupField recW.metadata "archived" = some (J.bool (jget okvs "archived").truthy) ∧
      lookupField recW.metadata "type" =
        some (if (typeField okvs).isNull then J.str "unknown" else typeField okvs) :=
  fetchObject_metadata_keys [("s1", "Space")] "s1" "o1" bodyW recW
    (fetchWarnings "o1" okvsW) rfl

/-- C6: on an item detail body whose nested object is present and
dict-shaped but lacks `markdown`, `_fetch_object` emits exactly one
diagnostic and produces zero records for that id without raising; on a
body whose nested object is missing or not dict-shaped it raises the
fatal malformed-response error. -/
theorem fetchObject_markdown_and_malformed (nameMap : List (String × String))
    (spaceId objectId : String) (body : J) :
    (∀ okvs, objectField body = J.obj okvs →
        (jget okvs "markdown").isNull = true →
        fetchObject nameMap spaceId objectId body =
          .ok (none, ["No markdown content for object " ++ objectId ++ "; skipping"])) ∧
    ((∀ okvs, objectField body ≠ J.obj okvs) →
        fetchObject nameMap spaceId objectId body =
          .error ("Malformed object response for " ++ objectId)) := by
  constructor
  · intro okvs hobj hmd
    unfold fetchObject
    simp only [hobj]
    rw [if_pos hmd]
  · intro h
    unfold fetchObject
    cases hv : objectField body
    case obj kvs => exact absurd hv (h kvs)
    all_goals rfl

theorem fetchObject_markdown_and_malformed_witness :
    fetchObject [] "s" "o" (J.obj [("object", J.obj [("name", J.str "X")])]) =
      .ok (none, ["No markdown content for object o; skipping"]) ∧
    fetchObject [] "s" "o" (J.str "bad") = .error "Malformed object response for o" :=
  ⟨(fetchObject_markdown_and_malformed [] "s" "o" _).1 [("name", J.str "X")] rfl rfl,
   (fetchObject_markdown_and_malformed [] "s" "o" _).2 (fun _ h => J.noConfusion h)⟩

theorem aIterObjectIds_eq_iter :
    ∀ (server : Nat → Page) (fuel offset : Nat),
      aIterObjectIds server fuel offset = iterObjectIds server fuel offset := by
  intro server fuel
  induction fuel with
  | zero => intro offset; rfl
  | succ n ih => intro offset; simp [aIterObjectIds, iterObjectIds, ih]

theorem afetchObject_eq_fetch : @afetchObject = @fetchObject := rfl

theorem collectALoad_eq_collect (nameMap : List (String × String))
    (detail : String → String → J) :
    ∀ ts, collectALoad nameMap detail ts = collectLoad nameMap detail ts := by
  intro ts
  induction ts with
  | nil => rfl
  | cons t rest ih =>
    obtain ⟨s, o⟩ := t
    simp only [collectALoad, collectLoad, afetchObject_eq_fetch, ih]

theorem collectLoad_ok (nameMap : List (String × String)) (detail : String → String → J) :
    ∀ ts : List (String × String),
      (∀ t ∈ ts, ∃ v, fetchObject nameMap t.1 t.2 (detail t.1 t.2) = .ok v) →
      collectLoad nameMap detail ts = .ok (ts.filterMap (recOf nameMap detail)) := by
  intro ts
  induction ts with
  | nil => intro _; rfl
  | cons t rest ih =>
    intro h
    obtain ⟨v, hv⟩ := h t (List.mem_cons_self t rest)
    have hr := ih (fun t2 ht2 => h t2 (List.mem_cons_of_mem _ ht2))
    obtain ⟨s, o⟩ := t
    simp only [collectLoad, hv, hr, List.filterMap_cons, recOf]
    cases hv1 : v.1 <;> simp [hv1]

/-- C2: on any fixture (same spaces, same paginated id pages, same
per-item detail bodies, all items well-formed), the records emitted by
the bounded-concurrency mode (`alazy_load`, yielding in an arbitrary
completion order of its tasks) are, up to order, exactly the records
emitted by the sequential mode (`lazy_load`): same content and same
metadata per item. -/
theorem alazyLoad_seq_equiv (fx : Fixture) (order : List (String × String))
    (hperm : order.Perm (aTaskList fx))
    (hok : ∀ t ∈ seqTaskList fx,
      ∃ v, fetchObject fx.nameMap t.1 t.2 (fx.detail t.1 t.2) = .ok v) :
    ∃ rs ra, runSeqLoad fx = .ok rs ∧ runALoad fx order = .ok ra ∧ ra.Perm rs := by
  have htask : aTaskList fx = seqTaskList fx := by
    unfold aTaskList seqTaskList
    refine congrArg _ (funext fun s => ?_)
    rw [aIterObjectIds_eq_iter]
  have hperm2 : order.Perm (seqTaskList fx) := htask ▸ hperm
  have hok2 : ∀ t ∈ order,
      ∃ v, fetchObject fx.nameMap t.1 t.2 (fx.detail t.1 t.2) = .ok v :=
    fun t ht => hok t (hperm2.subset ht)
  refine ⟨(seqTaskList fx).filterMap (recOf fx.nameMap fx.detail),
          order.filterMap (recOf fx.nameMap fx.detail),
          collectLoad_ok _ _ _ hok, ?_, ?_⟩
  · show collectALoad fx.nameMap fx.detail order = _
    rw [collectALoad_eq_collect]
    exact collectLoad_ok _ _ _ hok2
  · exact hperm2.filterMap _

theorem alazyLoad_seq_equiv_witness :
    ∃ rs ra, runSeqLoad fxW = .ok rs ∧
      runALoad fxW ((aTaskList fxW).reverse) = .ok ra ∧ ra.Perm rs :=
  alazyLoad_seq_equiv fxW ((aTaskList fxW).reverse) ((aTaskList fxW).reverse_perm)
    (fun _t _ => ⟨_, rfl⟩)

end Anytype
